import Mathlib

/-!
Shallow embedding of the butterfly rumor store
(`src/components/butterfly/src/rumor.rs`) of the habitat repository.

The Rust `RumorStore<T>` is a two-level `HashMap<String, HashMap<String, T>>`
behind a lock, together with an atomic `usize` update counter.  We model the
hash maps as association lists with (where needed) no-duplicate-key
well-formedness, the update counter as a `Nat` reduced mod `2 ^ 64`
(`usize` wrap-around on `fetch_add`), and the `Rumor` trait as a structure
of functions (`RumorImpl`).  The process-global prometheus counter
`IGNORED_RUMOR_COUNT` (labelled by rumor kind) is modelled as a function
`String → Nat` threaded through `insert`.
-/

namespace Butterfly

/-- `usize::MAX + 1`: the modulus for the wrapping `usize` update counter. -/
def USIZE : Nat := 2 ^ 64

/-! ### Association-list model of `HashMap<String, V>` -/

/-- Lookup in an association list (`HashMap::get`). -/
def assocGet {α : Type} : List (String × α) → String → Option α
  | [], _ => none
  | (k', v) :: rest, k => if k' = k then some v else assocGet rest k

/-- Set the value at a key, appending if absent
(`HashMap::insert` / an occupied or vacant `Entry`). -/
def assocSet {α : Type} : List (String × α) → String → α → List (String × α)
  | [], k, v => [(k, v)]
  | (k', v') :: rest, k, v =>
    if k' = k then (k', v) :: rest else (k', v') :: assocSet rest k v

/-- Remove the entry at a key (`HashMap::remove`); removes the first
occurrence, which is the only one for a well-formed map. -/
def assocRemove {α : Type} : List (String × α) → String → List (String × α)
  | [], _ => []
  | (k', v) :: rest, k => if k' = k then rest else (k', v) :: assocRemove rest k

/-- Apply a function to the value stored at a key, if present
(`HashMap::get_mut` followed by mutation). -/
def assocUpdate {α : Type} : List (String × α) → String → (α → α) → List (String × α)
  | [], _, _ => []
  | (k', v) :: rest, k, f =>
    if k' = k then (k', f v) :: rest else (k', v) :: assocUpdate rest k f

/-! ### Expiration (`Expiration` wraps a `DateTime<Utc>`; we model instants
as `Int` nanoseconds-since-epoch) -/

/-- `Expiration(DateTime<Utc>)`. -/
structure Expiration where
  date : Int
  deriving DecidableEq, Repr

/-- `Expiration::expired`: `now > self.0`, i.e. the expiration instant is
strictly earlier than `now`. -/
def Expiration.expired (e : Expiration) (now : Int) : Bool := now > e.date

/-! ### The `Rumor` trait as a structure of functions

`merge(&mut self, other) -> bool` becomes `merge : T → T → T × Bool`
(new value of `self`, and the returned change flag).  `write_to_bytes`
is the wire encoding from the `Message` trait. -/

/-- The error type of the operations we model
(`Error::NonExistentRumor(id, key)`, `Error::ProtocolMismatch(field)`). -/
inductive Error where
  | NonExistentRumor (id : String) (key : String)
  | ProtocolMismatch (field : String)
  deriving DecidableEq, Repr

structure RumorImpl (T : Type) where
  kind : T → String
  key : T → String
  id : T → String
  merge : T → T → T × Bool
  expiration : T → Expiration
  expire : T → T
  write_to_bytes : T → Except Error (List Nat)

/-! ### The rumor store -/

/-- `RumorStore<T>`: the two-level map plus the update counter. -/
structure RumorStore (T : Type) where
  list : List (String × List (String × T))
  update_counter : Nat
  deriving DecidableEq, Repr

variable {T : Type}

/-- Well-formedness matching `HashMap` semantics: no duplicate keys at
either level. -/
def RumorStore.WF (s : RumorStore T) : Prop :=
  (s.list.map Prod.fst).Nodup ∧ ∀ kv ∈ s.list, (kv.2.map Prod.fst).Nodup

instance (s : RumorStore T) : Decidable s.WF := by
  unfold RumorStore.WF; infer_instance

/-- `RumorStore::new(counter)`. -/
def RumorStore.new (counter : Nat) : RumorStore T :=
  { list := [], update_counter := counter }

/-- `RumorStore::get_update_counter`. -/
def RumorStore.get_update_counter (s : RumorStore T) : Nat := s.update_counter

/-- `RumorStore::increment_update_counter`: `fetch_add(1)` on an
`AtomicUsize`, which wraps on overflow. -/
def RumorStore.increment_update_counter (s : RumorStore T) : RumorStore T :=
  { s with update_counter := (s.update_counter + 1) % USIZE }

/-- `RumorStore::clear`: empties the map and swaps the counter to 0,
returning the prior counter value. -/
def RumorStore.clear (s : RumorStore T) : RumorStore T × Nat :=
  ({ list := [], update_counter := 0 }, s.update_counter)

/-- `RumorStore::contains_rumor`. -/
def RumorStore.contains_rumor (s : RumorStore T) (key id : String) : Bool :=
  ((assocGet s.list key).bind fun l => assocGet l id).isSome

/-- `RumorStore::len_for_key`. -/
def RumorStore.len_for_key (s : RumorStore T) (key : String) : Nat :=
  (assocGet s.list key).elim 0 List.length

/-- `RumorStore::encode(key, id)`: wire-encodes the stored rumor, or fails
with `NonExistentRumor(id, key)`. -/
def RumorStore.encode (impl : RumorImpl T) (s : RumorStore T) (key id : String) :
    Except Error (List Nat) :=
  match (assocGet s.list key).bind fun l => assocGet l id with
  | some rumor => impl.write_to_bytes rumor
  | none => .error (.NonExistentRumor id key)

/-- `RumorStore::insert`: routes to the inner map by
`(rumor.key(), rumor.id())` (creating the outer entry if needed), merges
into an occupied inner entry or installs into a vacant one; on change the
update counter is incremented, otherwise the per-kind ignored-rumor
counter is.  Returns the new store, the new ignored counters and the
`changed` flag. -/
def RumorStore.insert (impl : RumorImpl T) (s : RumorStore T)
    (ignored : String → Nat) (rumor : T) :
    RumorStore T × (String → Nat) × Bool :=
  let outer := impl.key rumor
  let inner := (assocGet s.list outer).getD []
  match assocGet inner (impl.id rumor) with
  | some existing =>
    let m := impl.merge existing rumor
    let list' := assocSet s.list outer (assocSet inner (impl.id rumor) m.1)
    if m.2 then
      (RumorStore.increment_update_counter { s with list := list' }, ignored, true)
    else
      ({ s with list := list' },
       fun k => if k = impl.kind rumor then ignored k + 1 else ignored k, false)
  | none =>
    let list' := assocSet s.list outer (inner ++ [(impl.id rumor, rumor)])
    (RumorStore.increment_update_counter { s with list := list' }, ignored, true)

/-- `RumorStore::remove(key, id)`: deletes the inner entry if present;
the outer entry is left in place (possibly empty), and nothing is
returned to the caller. -/
def RumorStore.remove (s : RumorStore T) (key id : String) : RumorStore T :=
  { s with list := assocUpdate s.list key fun inner => assocRemove inner id }

/-- All rumor values of the store
(`values().flat_map(HashMap::values).cloned()`). -/
def RumorStore.allRumors (s : RumorStore T) : List T :=
  s.list.flatMap fun kv => kv.2.map Prod.snd

/-- `RumorStore::partitioned_rumors`: (expired, live) partition of all
rumors by `expiration.expired(date)`. -/
def RumorStore.partitioned_rumors (impl : RumorImpl T) (s : RumorStore T)
    (date : Int) : List T × List T :=
  s.allRumors.partition fun r => (impl.expiration r).expired date

/-- `RumorStore::expired_rumors`. -/
def RumorStore.expired_rumors (impl : RumorImpl T) (s : RumorStore T)
    (date : Int) : List T :=
  (s.partitioned_rumors impl date).1

/-- `RumorStore::live_rumors`. -/
def RumorStore.live_rumors (impl : RumorImpl T) (s : RumorStore T)
    (date : Int) : List T :=
  (s.partitioned_rumors impl date).2

/-- `RumorStore::purge_expired`: removes, by `(key(), id())`, every rumor
that is expired at `date`. -/
def RumorStore.purge_expired (impl : RumorImpl T) (s : RumorStore T)
    (date : Int) : RumorStore T :=
  (s.expired_rumors impl date).foldl
    (fun st r => st.remove (impl.key r) (impl.id r)) s

/-- `RumorStore::expire_all_for_key`: calls `Rumor::expire` on every rumor
stored under `key`. -/
def RumorStore.expire_all_for_key (impl : RumorImpl T) (s : RumorStore T)
    (key : String) : RumorStore T :=
  { s with list := assocUpdate s.list key fun inner =>
      inner.map fun iv => (iv.1, impl.expire iv.2) }

/-- `RumorStore::<Service>::contains_group_without_member`: the group
exists but holds no rumor for the member. -/
def RumorStore.contains_group_without_member (s : RumorStore T)
    (service_group member_id : String) : Bool :=
  match assocGet s.list service_group with
  | some group_rumors => !(assocGet group_rumors member_id).isSome
  | none => false

/-- A sequence of `insert` calls, accumulating the number of calls that
returned `changed = true`. -/
def RumorStore.insertSeq (impl : RumorImpl T) (s : RumorStore T)
    (ignored : String → Nat) :
    List T → RumorStore T × (String → Nat) × Nat
  | [] => (s, ignored, 0)
  | r :: rest =>
    let step := s.insert impl ignored r
    let tail := RumorStore.insertSeq impl step.1 step.2.1 rest
    (tail.1, tail.2.1, (if step.2.2 then 1 else 0) + tail.2.2)

/-! ### Byte-lexicographic order on member ids (UTF-8 encoding)

Rust's `Ord` on `String` compares the UTF-8 byte sequences
lexicographically; `Iterator::min` over `keys().filter(...)` in
`min_member_id_with` uses that order. -/

/-- The UTF-8 encoding of a single Unicode code point, as `Nat` byte
values. -/
def charUtf8 (c : Nat) : List Nat :=
  if c < 0x80 then [c]
  else if c < 0x800 then [0xC0 + c / 64, 0x80 + c % 64]
  else if c < 0x10000 then [0xE0 + c / 4096, 0x80 + c / 64 % 64, 0x80 + c % 64]
  else [0xF0 + c / 262144, 0x80 + c / 4096 % 64, 0x80 + c / 64 % 64, 0x80 + c % 64]

/-- The UTF-8 byte sequence of a string. -/
def utf8Bytes (s : String) : List Nat :=
  s.data.flatMap fun ch => charUtf8 ch.toNat

/-- One step of `Iterator::min` over strings under Rust's
byte-lexicographic `Ord` (lexicographic order on the UTF-8 bytes; ties
keep the earlier element — map keys are distinct anyway). -/
def rumorMinStep (acc : Option String) (k : String) : Option String :=
  match acc with
  | none => some k
  | some m => if utf8Bytes k < utf8Bytes m then some k else some m

/-- `Iterator::min` over strings under Rust's byte-lexicographic `Ord`,
as a fold. -/
def rustMinString (l : List String) : Option String :=
  l.foldl rumorMinStep none

/-- `RumorStore::<Service>::min_member_id_with`: the minimal inner key of
the group satisfying the predicate, under byte-lexicographic order. -/
def RumorStore.min_member_id_with (s : RumorStore T) (service_group : String)
    (p : String → Bool) : Option String :=
  match assocGet s.list service_group with
  | none => none
  | some rumor_map => rustMinString ((rumor_map.map Prod.fst).filter p)

/-! ### Election rumors and the serialization proxies

The election module (`rumor/election.rs`) is not among the provided
sources; the `ElectionUpdate` rumor type and its `Rumor` impl are
modelled from the spec.  The `RumorStoreProxy` `Serialize` impls ARE in
the provided source (`rumor.rs`); a JSON map serialization is modelled
as the association list of (key, value) entries it emits. -/

/-- Election phase (spec §3: phase ∈ \x7bRunning, NoQuorum, Finished\x7d). -/
inductive ElectionPhase where
  | Running
  | NoQuorum
  | Finished
  deriving DecidableEq, Repr

/-- Modelled from the spec: the `ElectionUpdate` rumor
(spec §3 item 7; the election module is not under the provided sources).
"Identical shape to Election ...; stored under `id = "election-update"`";
payload: suitability score, member_id of candidate, term, phase, votes,
incarnation, expiration. -/
structure ElectionUpdate where
  member_id : String
  service_group : String
  term : Nat
  suitability : Nat
  phase : ElectionPhase
  votes : List String
  incarnation : Nat
  expiration : Expiration
  deriving DecidableEq, Repr

/-- Modelled from the spec: the `Rumor` impl of `ElectionUpdate`
(spec §3 item 7 for `id`/`key`, §4.C for the merge state machine,
§4.D for a deterministic wire encoding; the election module is not under
the provided sources). -/
def electionUpdateImpl : RumorImpl ElectionUpdate where
  kind := fun _ => "election-update"
  key := fun r => r.service_group
  id := fun _ => "election-update"
  merge := fun self other =>
    if other.term > self.term then (other, true)
    else if other.term < self.term then (self, false)
    else if other.phase = .Finished ∧ self.phase ≠ .Finished then (other, true)
    else if other.phase = .Finished ∧ self.phase = .Finished then (self, false)
    else
      let newVotes := other.votes.filter fun v => ¬ v ∈ self.votes
      ({ self with votes := self.votes ++ newVotes }, !newVotes.isEmpty)
  expiration := fun r => r.expiration
  expire := fun r => r
  write_to_bytes := fun r => .ok (utf8Bytes r.member_id)

/-- `Serialize for RumorStoreProxy<'a, ElectionUpdate>` (source,
rumor.rs lines 269-290): for each outer entry `(k, v)` the proxy emits
`(k, v.get("election"))` — the inner key looked up is `"election"`,
exactly as in the `Election` proxy. -/
def proxyElectionUpdate (s : RumorStore ElectionUpdate) :
    List (String × Option ElectionUpdate) :=
  s.list.map fun kv => (kv.1, assocGet kv.2 "election")

/-! ### The envelope codec (`RumorEnvelope::decode`)

The protobuf-decoded envelope (`ProtoRumor`) and the per-variant payload
parsers (`FromProto`) live in the protocol module, which is not among the
provided sources; we model the already-decoded envelope as a structure
and leave the payload parsers abstract (a parameter of `decode`). -/

/-- The rumor kind enum `RumorType` (tags from spec §3 / §4.D; `Fake` and
`Fake2` are test-only variants matched in `decode`). -/
inductive RumorType where
  | Member
  | Departure
  | Service
  | ServiceConfig
  | ServiceFile
  | Election
  | ElectionUpdate
  | Fake
  | Fake2
  deriving DecidableEq, Repr

/-- Modelled from the spec: `RumorType::from_i32` (the protocol module is
not under the provided sources).  Spec §4.D: the kind tag is `1..=7` in
the order of §3; any other tag is unknown.  The spec assigns no wire tag
to the test-only `Fake`/`Fake2` variants, so `from_i32` never produces
them. -/
def RumorType.from_i32 (n : Int) : Option RumorType :=
  if n = 1 then some .Member
  else if n = 2 then some .Departure
  else if n = 3 then some .Service
  else if n = 4 then some .ServiceConfig
  else if n = 5 then some .ServiceFile
  else if n = 6 then some .Election
  else if n = 7 then some .ElectionUpdate
  else none

/-- The protobuf-decoded wire envelope `ProtoRumor`: kind tag, optional
sender id, opaque payload bytes (the variant payload is parsed later by
the per-variant `FromProto`). -/
structure ProtoRumor where
  rtype : Int
  from_id : Option String
  payload : List Nat
  deriving DecidableEq, Repr

/-- A decoded `RumorEnvelope`, generic over the payload representation
`K` (`RumorKind` in the source). -/
structure RumorEnvelope (K : Type) where
  rtype : RumorType
  from_id : String
  kind : K
  deriving DecidableEq, Repr

/-- Outcome of `RumorEnvelope::decode`: success, a returned error, or the
`panic!("fake rumor")` arm for the test-only variants. -/
inductive DecodeResult (K : Type) where
  | ok (env : RumorEnvelope K)
  | err (e : Error)
  | panicked
  deriving DecidableEq, Repr

/-- `RumorEnvelope::decode` after protobuf decoding, parameterized by the
per-variant payload parsers (`FromProto::from_proto`, not under the
provided sources): fails with `ProtocolMismatch("type")` when the kind
tag is unrecognized, then with `ProtocolMismatch("from-id")` when the
sender id is missing, then dispatches on the kind. -/
def RumorEnvelope.decode {K : Type}
    (from_proto : RumorType → ProtoRumor → Except Error K)
    (proto : ProtoRumor) : DecodeResult K :=
  match RumorType.from_i32 proto.rtype with
  | none => .err (.ProtocolMismatch "type")
  | some t =>
    match proto.from_id with
    | none => .err (.ProtocolMismatch "from-id")
    | some fid =>
      match t with
      | .Fake | .Fake2 => .panicked
      | t =>
        match from_proto t proto with
        | .error e => .err e
        | .ok k => .ok { rtype := t, from_id := fid, kind := k }

/-! ### A concrete rumor type for witnesses and counterexamples

Mirrors the `FakeRumor` used by the source's own tests: `merge` keeps
`self` and reports no change, `expire` is a no-op, and the wire encoding
is the bytes of `"id-key"`. -/

structure FakeR where
  fid : String
  fkey : String
  fexp : Int
  deriving DecidableEq, Repr

def fakeImpl : RumorImpl FakeR where
  kind := fun _ => "fake"
  key := fun r => r.fkey
  id := fun r => r.fid
  merge := fun self _ => (self, false)
  expiration := fun r => ⟨r.fexp⟩
  expire := fun r => r
  write_to_bytes := fun r => .ok (utf8Bytes (r.fid ++ "-" ++ r.fkey))

/-! ### Association-list lemmas -/

theorem assocGet_of_not_mem {α : Type} (l : List (String × α)) (k : String)
    (h : k ∉ l.map Prod.fst) : assocGet l k = none := by
  induction l with
  | nil => rfl
  | cons kv rest ih =>
    obtain ⟨k₀, v₀⟩ := kv
    simp only [List.map_cons, List.mem_cons, not_or] at h
    simp only [assocGet, if_neg (fun hh : k₀ = k => h.1 hh.symm)]
    exact ih h.2

theorem assocGet_assocSet {α : Type} (l : List (String × α)) (k k' : String) (v : α) :
    assocGet (assocSet l k v) k' = if k = k' then some v else assocGet l k' := by
  induction l with
  | nil => simp [assocSet, assocGet]
  | cons kv rest ih =>
    obtain ⟨k₀, v₀⟩ := kv
    by_cases h₀ : k₀ = k
    · subst h₀
      by_cases h : k₀ = k' <;> simp [assocSet, assocGet, h]
    · by_cases h : k₀ = k'
      · have hk : ¬ k = k' := fun hh => h₀ (h.trans hh.symm)
        have hk' : ¬ k' = k := fun hh => hk hh.symm
        simp [assocSet, assocGet, h₀, h, hk, hk']
      · simp [assocSet, assocGet, h₀, h, ih]

theorem assocGet_assocUpdate {α : Type} (l : List (String × α)) (k k' : String)
    (f : α → α) :
    assocGet (assocUpdate l k f) k' =
      if k = k' then (assocGet l k').map f else assocGet l k' := by
  induction l with
  | nil => simp [assocUpdate, assocGet]
  | cons kv rest ih =>
    obtain ⟨k₀, v₀⟩ := kv
    by_cases h₀ : k₀ = k
    · subst h₀
      by_cases h : k₀ = k' <;> simp [assocUpdate, assocGet, h]
    · by_cases h : k₀ = k'
      · have hk : ¬ k = k' := fun hh => h₀ (h.trans hh.symm)
        have hk' : ¬ k' = k := fun hh => hk hh.symm
        simp [assocUpdate, assocGet, h₀, h, hk, hk']
      · simp [assocUpdate, assocGet, h₀, h, ih]

theorem assocGet_assocRemove_ne {α : Type} (l : List (String × α)) (k k' : String)
    (h : k ≠ k') : assocGet (assocRemove l k) k' = assocGet l k' := by
  induction l with
  | nil => simp [assocRemove]
  | cons kv rest ih =>
    obtain ⟨k₀, v₀⟩ := kv
    by_cases h₀ : k₀ = k
    · have hk : ¬ k₀ = k' := fun hh => h (h₀.symm.trans hh)
      simp [assocRemove, assocGet, h₀, hk, h]
    · by_cases h₁ : k₀ = k'
      · have hk' : ¬ k' = k := fun hh => h hh.symm
        simp [assocRemove, assocGet, h₀, h₁, hk']
      · simp [assocRemove, assocGet, h₀, h₁, ih]

theorem assocGet_assocRemove_self {α : Type} (l : List (String × α)) (k : String)
    (hnd : (l.map Prod.fst).Nodup) : assocGet (assocRemove l k) k = none := by
  induction l with
  | nil => rfl
  | cons kv rest ih =>
    obtain ⟨k₀, v₀⟩ := kv
    simp only [List.map_cons, List.nodup_cons] at hnd
    by_cases h₀ : k₀ = k
    · subst h₀
      simp only [assocRemove, if_pos rfl]
      exact assocGet_of_not_mem rest k₀ hnd.1
    · simp only [assocRemove, if_neg h₀, assocGet, if_neg h₀]
      exact ih hnd.2

theorem assocGet_assocRemove_of_none {α : Type} (l : List (String × α)) (k k' : String)
    (h : assocGet l k' = none) : assocGet (assocRemove l k) k' = none := by
  induction l with
  | nil => rfl
  | cons kv rest ih =>
    obtain ⟨k₀, v₀⟩ := kv
    simp only [assocGet] at h
    by_cases h₁ : k₀ = k'
    · rw [if_pos h₁] at h
      exact absurd h (by simp)
    · rw [if_neg h₁] at h
      by_cases h₀ : k₀ = k
      · simpa [assocRemove, h₀] using h
      · simp only [assocRemove, if_neg h₀, assocGet, if_neg h₁]
        exact ih h

theorem keys_assocRemove_sublist {α : Type} (l : List (String × α)) (k : String) :
    ((assocRemove l k).map Prod.fst).Sublist (l.map Prod.fst) := by
  induction l with
  | nil => simp [assocRemove]
  | cons kv rest ih =>
    obtain ⟨k₀, v₀⟩ := kv
    by_cases h₀ : k₀ = k
    · simp only [assocRemove, if_pos h₀, List.map_cons]
      exact List.Sublist.cons _ (List.Sublist.refl _)
    · simp only [assocRemove, if_neg h₀, List.map_cons]
      exact List.Sublist.cons₂ _ ih

theorem keys_assocUpdate {α : Type} (l : List (String × α)) (k : String) (f : α → α) :
    (assocUpdate l k f).map Prod.fst = l.map Prod.fst := by
  induction l with
  | nil => simp [assocUpdate]
  | cons kv rest ih =>
    obtain ⟨k₀, v₀⟩ := kv
    by_cases h₀ : k₀ = k <;> simp [assocUpdate, h₀, ih]

theorem mem_assocUpdate {α : Type} (l : List (String × α)) (k : String) (f : α → α)
    (kv : String × α) :
    kv ∈ assocUpdate l k f → kv ∈ l ∨ ∃ v, kv = (k, f v) ∧ (k, v) ∈ l := by
  induction l with
  | nil => intro h; simp [assocUpdate] at h
  | cons kv₀ rest ih =>
    intro h
    obtain ⟨k₀, v₀⟩ := kv₀
    by_cases h₀ : k₀ = k
    · subst h₀
      have he : assocUpdate ((k₀, v₀) :: rest) k₀ f = (k₀, f v₀) :: rest := by
        simp [assocUpdate]
      rw [he] at h
      rcases List.mem_cons.mp h with h1 | h2
      · exact Or.inr ⟨v₀, h1, List.mem_cons_self _ _⟩
      · exact Or.inl (List.mem_cons_of_mem _ h2)
    · have he : assocUpdate ((k₀, v₀) :: rest) k f = (k₀, v₀) :: assocUpdate rest k f := by
        simp [assocUpdate, h₀]
      rw [he] at h
      rcases List.mem_cons.mp h with h1 | h2
      · exact Or.inl (h1 ▸ List.mem_cons_self _ _)
      · rcases ih h2 with h' | ⟨v, hv, hmem⟩
        · exact Or.inl (List.mem_cons_of_mem _ h')
        · exact Or.inr ⟨v, hv, List.mem_cons_of_mem _ hmem⟩

theorem assocUpdate_of_none {α : Type} (l : List (String × α)) (k : String) (f : α → α)
    (h : assocGet l k = none) : assocUpdate l k f = l := by
  induction l with
  | nil => rfl
  | cons kv rest ih =>
    obtain ⟨k₀, v₀⟩ := kv
    simp only [assocGet] at h
    by_cases h₀ : k₀ = k
    · rw [if_pos h₀] at h
      exact absurd h (by simp)
    · rw [if_neg h₀] at h
      simp [assocUpdate, h₀, ih h]

theorem assocRemove_of_none {α : Type} (l : List (String × α)) (k : String)
    (h : assocGet l k = none) : assocRemove l k = l := by
  induction l with
  | nil => rfl
  | cons kv rest ih =>
    obtain ⟨k₀, v₀⟩ := kv
    simp only [assocGet] at h
    by_cases h₀ : k₀ = k
    · rw [if_pos h₀] at h
      exact absurd h (by simp)
    · rw [if_neg h₀] at h
      simp [assocRemove, h₀, ih h]

theorem assocUpdate_of_fix {α : Type} (l : List (String × α)) (k : String) (f : α → α)
    (v : α) (h : assocGet l k = some v) (hf : f v = v) : assocUpdate l k f = l := by
  induction l with
  | nil => simp [assocGet] at h
  | cons kv rest ih =>
    obtain ⟨k₀, v₀⟩ := kv
    simp only [assocGet] at h
    by_cases h₀ : k₀ = k
    · rw [if_pos h₀] at h
      have hv : v = v₀ := by
        injection h with h'
        exact h'.symm
      subst hv
      simp [assocUpdate, h₀, hf]
    · rw [if_neg h₀] at h
      simp [assocUpdate, h₀, ih h]

theorem assocGet_mem {α : Type} (l : List (String × α)) (k : String) (v : α)
    (h : assocGet l k = some v) : (k, v) ∈ l := by
  induction l with
  | nil => simp [assocGet] at h
  | cons kv rest ih =>
    obtain ⟨k₀, v₀⟩ := kv
    simp only [assocGet] at h
    by_cases h₀ : k₀ = k
    · rw [if_pos h₀] at h
      injection h with h'
      subst h₀
      subst h'
      exact List.mem_cons_self _ _
    · rw [if_neg h₀] at h
      exact List.mem_cons_of_mem _ (ih h)

theorem assocGet_map_pair {α β : Type} (l : List (String × α)) (f : α → β) (k : String) :
    assocGet (l.map fun kv => (kv.1, f kv.2)) k = (assocGet l k).map f := by
  induction l with
  | nil => rfl
  | cons kv rest ih =>
    obtain ⟨k₀, v₀⟩ := kv
    by_cases h₀ : k₀ = k <;> simp [assocGet, h₀, ih]

/-! ### Store-operation lemmas shared by the claim theorems -/

variable {T : Type}

theorem remove_update_counter (s : RumorStore T) (key id : String) :
    (s.remove key id).update_counter = s.update_counter := rfl

theorem expire_all_update_counter (impl : RumorImpl T) (s : RumorStore T) (key : String) :
    (s.expire_all_for_key impl key).update_counter = s.update_counter := rfl

theorem foldl_remove_update_counter (impl : RumorImpl T) (l : List T) (s : RumorStore T) :
    (l.foldl (fun st r => st.remove (impl.key r) (impl.id r)) s).update_counter
      = s.update_counter := by
  induction l generalizing s with
  | nil => rfl
  | cons r rest ih => exact ih (s.remove (impl.key r) (impl.id r))

theorem purge_update_counter (impl : RumorImpl T) (s : RumorStore T) (date : Int) :
    (s.purge_expired impl date).update_counter = s.update_counter :=
  foldl_remove_update_counter impl _ s

theorem insert_update_counter (impl : RumorImpl T) (s : RumorStore T)
    (ignored : String → Nat) (r : T) :
    (s.insert impl ignored r).1.update_counter =
      if (s.insert impl ignored r).2.2 then (s.update_counter + 1) % USIZE
      else s.update_counter := by
  unfold RumorStore.insert
  rcases h : assocGet ((assocGet s.list (impl.key r)).getD []) (impl.id r) with _ | ex
  · simp [h, RumorStore.increment_update_counter]
  · rcases hm : impl.merge ex r with ⟨merged, changed⟩
    cases changed <;> simp [h, hm, RumorStore.increment_update_counter]

theorem insert_changed_iff (impl : RumorImpl T) (s : RumorStore T)
    (ignored : String → Nat) (r : T) :
    (s.insert impl ignored r).2.2 = true ↔
      assocGet ((assocGet s.list (impl.key r)).getD []) (impl.id r) = none ∨
      ∃ ex, assocGet ((assocGet s.list (impl.key r)).getD []) (impl.id r) = some ex ∧
        (impl.merge ex r).2 = true := by
  unfold RumorStore.insert
  rcases h : assocGet ((assocGet s.list (impl.key r)).getD []) (impl.id r) with _ | ex
  · simp [h]
  · rcases hm : impl.merge ex r with ⟨merged, changed⟩
    cases changed <;> simp [h, hm]

theorem insert_ignored_eq (impl : RumorImpl T) (s : RumorStore T)
    (ignored : String → Nat) (r : T) :
    (s.insert impl ignored r).2.1 =
      if (s.insert impl ignored r).2.2 then ignored
      else fun k => if k = impl.kind r then ignored k + 1 else ignored k := by
  unfold RumorStore.insert
  rcases h : assocGet ((assocGet s.list (impl.key r)).getD []) (impl.id r) with _ | ex
  · simp [h]
  · rcases hm : impl.merge ex r with ⟨merged, changed⟩
    cases changed <;> simp [h, hm]

theorem insertSeq_counter (impl : RumorImpl T) :
    ∀ (rs : List T) (s : RumorStore T) (ignored : String → Nat),
      s.update_counter < USIZE →
      (s.insertSeq impl ignored rs).1.update_counter =
        (s.update_counter + (s.insertSeq impl ignored rs).2.2) % USIZE
  | [], s, ignored, hc => by
    simp [RumorStore.insertSeq, Nat.mod_eq_of_lt hc]
  | r :: rest, s, ignored, hc => by
    have hcnt := insert_update_counter impl s ignored r
    have hlt : (s.insert impl ignored r).1.update_counter < USIZE := by
      rw [hcnt]
      split
      · exact Nat.mod_lt _ (by simp [USIZE])
      · exact hc
    have ih := insertSeq_counter impl rest (s.insert impl ignored r).1
      (s.insert impl ignored r).2.1 hlt
    simp only [RumorStore.insertSeq]
    rw [ih, hcnt]
    by_cases hb : (s.insert impl ignored r).2.2 = true
    · simp only [hb, if_true, if_pos]
      rw [Nat.mod_add_mod, Nat.add_assoc]
    · simp only [Bool.not_eq_true] at hb
      simp only [hb, Bool.false_eq_true, if_false]
      rw [Nat.zero_add]

/-! ### C1 -/

/-- C1: `insert` returns `true` exactly when the `(key(), id())` pair was
absent or the existing entry's `merge` reported a change; the update
counter is incremented (wrapping) on exactly the calls that return
`true`, while calls that return `false` increment the per-kind
ignored-rumor counter instead; consequently, over any sequence of
inserts the counter advances by exactly the number of calls that
returned `true`. -/
theorem insert_changed_iff_and_counter_equivalence (impl : RumorImpl T)
    (s : RumorStore T) (ignored : String → Nat) (r : T) (rs : List T)
    (hc : s.update_counter < USIZE) :
    ((s.insert impl ignored r).2.2 = true ↔
      assocGet ((assocGet s.list (impl.key r)).getD []) (impl.id r) = none ∨
      ∃ ex, assocGet ((assocGet s.list (impl.key r)).getD []) (impl.id r) = some ex ∧
        (impl.merge ex r).2 = true) ∧
    ((s.insert impl ignored r).1.update_counter =
      if (s.insert impl ignored r).2.2 then (s.update_counter + 1) % USIZE
      else s.update_counter) ∧
    ((s.insert impl ignored r).2.1 =
      if (s.insert impl ignored r).2.2 then ignored
      else fun k => if k = impl.kind r then ignored k + 1 else ignored k) ∧
    ((s.insertSeq impl ignored rs).1.update_counter =
      (s.update_counter + (s.insertSeq impl ignored rs).2.2) % USIZE) :=
  ⟨insert_changed_iff impl s ignored r, insert_update_counter impl s ignored r,
   insert_ignored_eq impl s ignored r, insertSeq_counter impl rs s ignored hc⟩

/-- Witness for C1: a fresh store, one rumor inserted twice (the second
insert is ignored by `FakeR`'s merge); counter advances by exactly the
number of changed inserts. -/
theorem insert_changed_iff_and_counter_equivalence_witness :
    (RumorStore.new (T := FakeR) 0).update_counter < USIZE ∧
    (((RumorStore.new (T := FakeR) 0).insert fakeImpl (fun _ => 0)
        ⟨"a", "k", 0⟩).2.2 = true ↔
      assocGet ((assocGet (RumorStore.new (T := FakeR) 0).list
          (fakeImpl.key ⟨"a", "k", 0⟩)).getD []) (fakeImpl.id ⟨"a", "k", 0⟩) = none ∨
      ∃ ex, assocGet ((assocGet (RumorStore.new (T := FakeR) 0).list
          (fakeImpl.key ⟨"a", "k", 0⟩)).getD [])
          (fakeImpl.id ⟨"a", "k", 0⟩) = some ex ∧
        (fakeImpl.merge ex ⟨"a", "k", 0⟩).2 = true) ∧
    (((RumorStore.new (T := FakeR) 0).insert fakeImpl (fun _ => 0)
        ⟨"a", "k", 0⟩).1.update_counter =
      if ((RumorStore.new (T := FakeR) 0).insert fakeImpl (fun _ => 0)
        ⟨"a", "k", 0⟩).2.2 then ((RumorStore.new (T := FakeR) 0).update_counter + 1) % USIZE
      else (RumorStore.new (T := FakeR) 0).update_counter) ∧
    (((RumorStore.new (T := FakeR) 0).insert fakeImpl (fun _ => 0)
        ⟨"a", "k", 0⟩).2.1 =
      if ((RumorStore.new (T := FakeR) 0).insert fakeImpl (fun _ => 0)
        ⟨"a", "k", 0⟩).2.2 then (fun _ => 0)
      else fun k => if k = fakeImpl.kind ⟨"a", "k", 0⟩ then (fun _ : String => 0) k + 1
        else (fun _ : String => 0) k) ∧
    (((RumorStore.new (T := FakeR) 0).insertSeq fakeImpl (fun _ => 0)
        [⟨"a", "k", 0⟩, ⟨"a", "k", 0⟩]).1.update_counter =
      ((RumorStore.new (T := FakeR) 0).update_counter +
        ((RumorStore.new (T := FakeR) 0).insertSeq fakeImpl (fun _ => 0)
          [⟨"a", "k", 0⟩, ⟨"a", "k", 0⟩]).2.2) % USIZE) :=
  ⟨by decide,
   insert_changed_iff_and_counter_equivalence fakeImpl (RumorStore.new 0)
     (fun _ => 0) ⟨"a", "k", 0⟩ [⟨"a", "k", 0⟩, ⟨"a", "k", 0⟩] (by decide)⟩

/-! ### C2 -/

/-- Concrete `FakeR` store used by the C2 counterexample: one rumor,
update counter 5. -/
def cxStore : RumorStore FakeR :=
  { list := [("fakerton", [("f1", ⟨"f1", "fakerton", 0⟩)])], update_counter := 5 }

/-- C2 counterexample: removing a present entry changes the stored
contents (the rumor disappears) but does NOT leave the update counter
strictly greater — it is unchanged — contradicting the claim that every
state-changing mutation increments the counter. -/
theorem remove_leaves_update_counter_cx :
    cxStore.contains_rumor "fakerton" "f1" = true ∧
    (cxStore.remove "fakerton" "f1").contains_rumor "fakerton" "f1" = false ∧
    (cxStore.remove "fakerton" "f1").update_counter = cxStore.update_counter ∧
    ¬ (cxStore.remove "fakerton" "f1").update_counter > cxStore.update_counter := by
  refine ⟨by decide, by decide, rfl, by decide⟩

/-- C2 amended: only a changing `insert` increments the update counter
(wrapping at `usize::MAX`); `remove`, `purge_expired` and
`expire_all_for_key` never modify the update counter, even when they
change the stored contents. -/
theorem update_counter_only_insert_increments (impl : RumorImpl T) (s : RumorStore T)
    (key id : String) (date : Int) (ignored : String → Nat) (r : T) :
    (s.remove key id).update_counter = s.update_counter ∧
    (s.purge_expired impl date).update_counter = s.update_counter ∧
    (s.expire_all_for_key impl key).update_counter = s.update_counter ∧
    (s.insert impl ignored r).1.update_counter =
      (if (s.insert impl ignored r).2.2 then (s.update_counter + 1) % USIZE
       else s.update_counter) :=
  ⟨remove_update_counter s key id, purge_update_counter impl s date,
   expire_all_update_counter impl s key, insert_update_counter impl s ignored r⟩

/-! ### C7 -/

/-- C7: `clear` empties all rumor data (no pair is contained and every
key has length 0 afterwards), resets the update counter to 0, and
returns the counter value held immediately before the reset. -/
theorem clear_resets_store_and_counter (s : RumorStore T) :
    (∀ key id, (s.clear.1).contains_rumor key id = false) ∧
    (∀ key, (s.clear.1).len_for_key key = 0) ∧
    (s.clear.1).update_counter = 0 ∧
    s.clear.2 = s.update_counter := by
  refine ⟨fun key id => rfl, fun key => rfl, rfl, rfl⟩

/-! ### C8 -/

/-- C8: with the update counter at `usize::MAX`, one state-changing
mutation (an `insert` of a rumor not yet present) wraps the counter to 0
without panicking. -/
theorem counter_wraps_at_usize_max (impl : RumorImpl T) (s : RumorStore T)
    (ignored : String → Nat) (r : T)
    (hmax : s.update_counter = USIZE - 1)
    (hvac : assocGet ((assocGet s.list (impl.key r)).getD []) (impl.id r) = none) :
    (s.insert impl ignored r).1.update_counter = 0 := by
  unfold RumorStore.insert
  simp [hvac, RumorStore.increment_update_counter, hmax, USIZE]

/-- Witness for C8 at a concrete store with counter `usize::MAX`. -/
theorem counter_wraps_at_usize_max_witness :
    (RumorStore.new (T := FakeR) (USIZE - 1)).update_counter = USIZE - 1 ∧
    assocGet ((assocGet (RumorStore.new (T := FakeR) (USIZE - 1)).list "k").getD [])
        "a" = none ∧
    ((RumorStore.new (T := FakeR) (USIZE - 1)).insert fakeImpl (fun _ => 0)
        ⟨"a", "k", 0⟩).1.update_counter = 0 :=
  ⟨rfl, rfl,
   counter_wraps_at_usize_max fakeImpl (RumorStore.new (USIZE - 1)) (fun _ => 0)
     ⟨"a", "k", 0⟩ rfl rfl⟩

/-! ### C4 -/

theorem remove_absent_eq (s : RumorStore T) (key id : String)
    (h : ((assocGet s.list key).bind fun l => assocGet l id) = none) :
    s.remove key id = s := by
  unfold RumorStore.remove
  rcases ho : assocGet s.list key with _ | inner
  · simp [assocUpdate_of_none s.list key _ ho]
  · rw [ho] at h
    have h' : assocGet inner id = none := h
    have : assocRemove inner id = inner := assocRemove_of_none inner id h'
    exact congrArg (fun l => ({ list := l, update_counter := s.update_counter } : RumorStore T))
      (assocUpdate_of_fix s.list key (fun l => assocRemove l id) inner ho this)

/-- C4 counterexample: on a missing `(outer, inner)` pair, `encode`
does fail with `NonExistentRumor(inner, outer)`, but `remove` does NOT
surface any error to the caller: it returns unit (here: the store,
unchanged) — there is no error channel in its signature at all. -/
theorem remove_missing_is_silent_cx :
    (RumorStore.new (T := FakeR) 0).contains_rumor "k" "i" = false ∧
    RumorStore.encode fakeImpl (RumorStore.new 0) "k" "i" =
      Except.error (Error.NonExistentRumor "i" "k") ∧
    (RumorStore.new (T := FakeR) 0).remove "k" "i" = RumorStore.new 0 := by
  refine ⟨rfl, rfl, rfl⟩

/-- C4 amended: for a missing `(outer, inner)` pair, `encode` fails with
`NonExistentRumor(inner, outer)` while `remove` silently does nothing
(the store is returned unchanged and no error is surfaced); for a
present pair, `encode` returns the wire encoding of the stored rumor. -/
theorem encode_nonexistent_remove_silent (impl : RumorImpl T) (s : RumorStore T)
    (key id : String) :
    (((assocGet s.list key).bind fun l => assocGet l id) = none →
      s.encode impl key id = .error (.NonExistentRumor id key) ∧
      s.remove key id = s) ∧
    (∀ r, ((assocGet s.list key).bind fun l => assocGet l id) = some r →
      s.encode impl key id = impl.write_to_bytes r) := by
  constructor
  · intro h
    constructor
    · unfold RumorStore.encode
      rw [h]
    · exact remove_absent_eq s key id h
  · intro r hr
    unfold RumorStore.encode
    rw [hr]

/-- Witness for C4 at the empty store (missing pair) and at a concrete
present pair. -/
theorem encode_nonexistent_remove_silent_witness :
    (((assocGet (RumorStore.new (T := FakeR) 0).list "k").bind
        fun l => assocGet l "i") = none) ∧
    (RumorStore.new (T := FakeR) 0).encode fakeImpl "k" "i" =
      .error (.NonExistentRumor "i" "k") ∧
    (RumorStore.new (T := FakeR) 0).remove "k" "i" = RumorStore.new 0 ∧
    (((assocGet cxStore.list "fakerton").bind fun l => assocGet l "f1") =
      some ⟨"f1", "fakerton", 0⟩) ∧
    cxStore.encode fakeImpl "fakerton" "f1" =
      fakeImpl.write_to_bytes ⟨"f1", "fakerton", 0⟩ :=
  ⟨rfl,
   ((encode_nonexistent_remove_silent fakeImpl (RumorStore.new 0) "k" "i").1 rfl).1,
   ((encode_nonexistent_remove_silent fakeImpl (RumorStore.new 0) "k" "i").1 rfl).2,
   rfl,
   (encode_nonexistent_remove_silent fakeImpl cxStore "fakerton" "f1").2
     ⟨"f1", "fakerton", 0⟩ rfl⟩

/-! ### C10 -/

/-- C10: deleting the last rumor under an outer key leaves the outer key
present with an empty inner map: after `remove` of a group's only rumor,
the group still exists (`contains_group_without_member(group, m)` is true
for every member id) and `len_for_key(group)` is 0. -/
theorem remove_last_rumor_keeps_group (s : RumorStore T) (group i : String) (r : T)
    (h : assocGet s.list group = some [(i, r)]) :
    assocGet (s.remove group i).list group = some [] ∧
    (∀ m, (s.remove group i).contains_group_without_member group m = true) ∧
    (s.remove group i).len_for_key group = 0 := by
  have hlist : assocGet (s.remove group i).list group = some [] := by
    unfold RumorStore.remove
    rw [assocGet_assocUpdate, if_pos rfl, h]
    simp [assocRemove]
  refine ⟨hlist, ?_, ?_⟩
  · intro m
    unfold RumorStore.contains_group_without_member
    rw [hlist]
    rfl
  · unfold RumorStore.len_for_key
    rw [hlist]
    rfl

/-- Witness for C10: `cxStore` holds exactly one rumor under
`"fakerton"`; removing it keeps the (now empty) group. -/
theorem remove_last_rumor_keeps_group_witness :
    assocGet cxStore.list "fakerton" = some [("f1", (⟨"f1", "fakerton", 0⟩ : FakeR))] ∧
    assocGet (cxStore.remove "fakerton" "f1").list "fakerton" = some [] ∧
    (∀ m, (cxStore.remove "fakerton" "f1").contains_group_without_member
      "fakerton" m = true) ∧
    (cxStore.remove "fakerton" "f1").len_for_key "fakerton" = 0 :=
  ⟨rfl,
   (remove_last_rumor_keeps_group cxStore "fakerton" "f1" ⟨"f1", "fakerton", 0⟩ rfl).1,
   (remove_last_rumor_keeps_group cxStore "fakerton" "f1" ⟨"f1", "fakerton", 0⟩ rfl).2.1,
   (remove_last_rumor_keeps_group cxStore "fakerton" "f1" ⟨"f1", "fakerton", 0⟩ rfl).2.2⟩

/-! ### C3 -/

/-- A concrete `ElectionUpdate` rumor. -/
def euRumor : ElectionUpdate :=
  { member_id := "m1", service_group := "g", term := 1, suitability := 0,
    phase := .Running, votes := [], incarnation := 0, expiration := ⟨0⟩ }

/-- The store obtained by inserting `euRumor` into a fresh
`RumorStore<ElectionUpdate>`: the rumor lands under inner key
`"election-update"` (the spec-modelled `id()` of `ElectionUpdate`). -/
def euStore : RumorStore ElectionUpdate :=
  ((RumorStore.new 0).insert electionUpdateImpl (fun _ => 0) euRumor).1

/-- C3 counterexample: with an `ElectionUpdate` rumor stored under its
inner key `"election-update"`, the proxy serialization maps the service
group `"g"` to `none` — NOT to the stored rumor — because the proxy
(source, rumor.rs 269-290) looks up the inner key `"election"`. -/
theorem election_update_proxy_cx :
    euStore.contains_rumor "g" "election-update" = true ∧
    assocGet euStore.list "g" = some [("election-update", euRumor)] ∧
    proxyElectionUpdate euStore = [("g", none)] ∧
    assocGet (proxyElectionUpdate euStore) "g" ≠ some (some euRumor) := by
  refine ⟨rfl, rfl, rfl, by decide⟩

/-- C3 amended: the `ElectionUpdate` projection collapses the inner key
`"election"` — the same inner key as the `Election` projection — mapping
every present service group to the entry stored under `"election"`; in
particular, when a group's rumors all live under other inner keys (such
as `"election-update"`), the group is mapped to `null`. -/
theorem election_update_proxy_collapses_election_key
    (s : RumorStore ElectionUpdate) (k : String)
    (v : List (String × ElectionUpdate)) (h : assocGet s.list k = some v) :
    assocGet (proxyElectionUpdate s) k = some (assocGet v "election") ∧
    ((∀ iv ∈ v, iv.1 ≠ "election") →
      assocGet (proxyElectionUpdate s) k = some none) := by
  have hmap : assocGet (proxyElectionUpdate s) k = some (assocGet v "election") := by
    unfold proxyElectionUpdate
    rw [assocGet_map_pair s.list (fun inner => assocGet inner "election") k, h]
    rfl
  refine ⟨hmap, fun hne => ?_⟩
  rw [hmap, assocGet_of_not_mem v "election" ?_]
  intro hmem
  rcases List.mem_map.mp hmem with ⟨iv, hiv, hfst⟩
  exact hne iv hiv hfst

/-- Witness for C3 (amended) at the concrete store `euStore`. -/
theorem election_update_proxy_collapses_election_key_witness :
    assocGet euStore.list "g" = some [("election-update", euRumor)] ∧
    (∀ iv ∈ [("election-update", euRumor)], iv.1 ≠ "election") ∧
    assocGet (proxyElectionUpdate euStore) "g" =
      some (assocGet [("election-update", euRumor)] "election") ∧
    assocGet (proxyElectionUpdate euStore) "g" = some none :=
  ⟨rfl, by decide,
   (election_update_proxy_collapses_election_key euStore "g"
     [("election-update", euRumor)] rfl).1,
   (election_update_proxy_collapses_election_key euStore "g"
     [("election-update", euRumor)] rfl).2 (by decide)⟩

/-! ### C5 -/

/-- C5: for every decoded envelope whose kind tag is not one of the seven
known rumor kinds (tag outside `1..=7`), `RumorEnvelope::decode` fails
with `ProtocolMismatch("type")`, whatever the payload parsers do. -/
theorem decode_unknown_tag_protocol_mismatch {K : Type}
    (from_proto : RumorType → ProtoRumor → Except Error K) (proto : ProtoRumor)
    (h : proto.rtype < 1 ∨ 7 < proto.rtype) :
    RumorEnvelope.decode from_proto proto = .err (.ProtocolMismatch "type") := by
  have hnone : RumorType.from_i32 proto.rtype = none := by
    unfold RumorType.from_i32
    split_ifs <;> first | rfl | (exfalso; omega)
  unfold RumorEnvelope.decode
  rw [hnone]

/-- Witness for C5 at the unknown tag 9 (and a present sender id, so the
failure is attributable to the tag alone). -/
theorem decode_unknown_tag_protocol_mismatch_witness :
    ((9 : Int) < 1 ∨ 7 < (9 : Int)) ∧
    RumorEnvelope.decode (K := Unit) (fun _ _ => .ok ())
      { rtype := 9, from_id := some "m1", payload := [] } =
      .err (.ProtocolMismatch "type") :=
  ⟨by decide,
   decode_unknown_tag_protocol_mismatch (fun _ _ => .ok ())
     { rtype := 9, from_id := some "m1", payload := [] } (by decide)⟩

/-! ### C6 -/

theorem remove_list (s : RumorStore T) (key id : String) :
    (s.remove key id).list = assocUpdate s.list key fun inner => assocRemove inner id :=
  rfl

theorem wf_remove (s : RumorStore T) (key id : String) (h : s.WF) :
    (s.remove key id).WF := by
  obtain ⟨h1, h2⟩ := h
  constructor
  · rw [remove_list, keys_assocUpdate]
    exact h1
  · intro kv hkv
    rw [remove_list] at hkv
    rcases mem_assocUpdate s.list key _ kv hkv with hmem | ⟨v, hkveq, hvmem⟩
    · exact h2 kv hmem
    · subst hkveq
      exact (h2 (key, v) hvmem).sublist (keys_assocRemove_sublist v id)

theorem contains_remove_self (s : RumorStore T) (key id : String) (h : s.WF) :
    (s.remove key id).contains_rumor key id = false := by
  unfold RumorStore.contains_rumor
  rw [remove_list, assocGet_assocUpdate, if_pos rfl]
  rcases ho : assocGet s.list key with _ | inner
  · rfl
  · have hnd := h.2 (key, inner) (assocGet_mem s.list key inner ho)
    simp [assocGet_assocRemove_self inner id hnd]

theorem contains_remove_of_false (s : RumorStore T) (key id key' id' : String)
    (h : s.contains_rumor key id = false) :
    (s.remove key' id').contains_rumor key id = false := by
  unfold RumorStore.contains_rumor at h ⊢
  rw [remove_list, assocGet_assocUpdate]
  by_cases hk : key' = key
  · rw [if_pos hk]
    rcases ho : assocGet s.list key with _ | inner
    · rfl
    · rw [ho] at h
      have h2 : (assocGet inner id).isSome = false := h
      rcases hi : assocGet inner id with _ | v
      · simp [assocGet_assocRemove_of_none inner id' id hi]
      · rw [hi] at h2
        exact absurd h2 (by simp)
  · rw [if_neg hk]
    exact h

theorem foldl_remove_contains_false (impl : RumorImpl T) (l : List T) :
    ∀ (s : RumorStore T) (key id : String), s.contains_rumor key id = false →
      (l.foldl (fun st r => st.remove (impl.key r) (impl.id r)) s).contains_rumor
        key id = false := by
  induction l with
  | nil => intro s key id h; exact h
  | cons a t ih =>
    intro s key id h
    exact ih _ key id (contains_remove_of_false s key id _ _ h)

theorem foldl_remove_not_contains (impl : RumorImpl T) (l : List T) :
    ∀ (s : RumorStore T), s.WF → ∀ r ∈ l,
      (l.foldl (fun st x => st.remove (impl.key x) (impl.id x)) s).contains_rumor
        (impl.key r) (impl.id r) = false := by
  induction l with
  | nil => intro s _ r hr; simp at hr
  | cons a t ih =>
    intro s hwf r hr
    rcases List.mem_cons.mp hr with rfl | hrt
    · exact foldl_remove_contains_false impl t _ _ _
        (contains_remove_self s (impl.key r) (impl.id r) hwf)
    · exact ih _ (wf_remove s (impl.key a) (impl.id a) hwf) r hrt

/-- C6: `expired_rumors(at)` is exactly the stored rumors whose
expiration is strictly earlier than `at`, `live_rumors(at)` exactly
those whose expiration is at `at` or later (the two filters partition
the stored rumors), and after `purge_expired(at)` no rumor whose
expiration was strictly earlier than `at` is contained any more. -/
theorem expired_live_partition_purge (impl : RumorImpl T) (s : RumorStore T)
    (date : Int) (hwf : s.WF) :
    s.expired_rumors impl date =
      s.allRumors.filter (fun r => (impl.expiration r).expired date) ∧
    s.live_rumors impl date =
      s.allRumors.filter (fun r => !(impl.expiration r).expired date) ∧
    ∀ r ∈ s.allRumors, (impl.expiration r).expired date = true →
      (s.purge_expired impl date).contains_rumor (impl.key r) (impl.id r) = false := by
  have hpart := List.partition_eq_filter_filter
    (fun r => (impl.expiration r).expired date) s.allRumors
  refine ⟨?_, ?_, ?_⟩
  · unfold RumorStore.expired_rumors RumorStore.partitioned_rumors
    rw [hpart]
  · unfold RumorStore.live_rumors RumorStore.partitioned_rumors
    rw [hpart]
    rfl
  · intro r hr hexp
    have hrmem : r ∈ s.expired_rumors impl date := by
      unfold RumorStore.expired_rumors RumorStore.partitioned_rumors
      rw [hpart]
      exact List.mem_filter.mpr ⟨hr, hexp⟩
    exact foldl_remove_not_contains impl (s.expired_rumors impl date) s hwf r hrmem

/-- A concrete store with one already-expired rumor, for the C6
witness. -/
def c6Store : RumorStore FakeR :=
  { list := [("k", [("a", ⟨"a", "k", -1⟩)])], update_counter := 0 }

/-- Witness for C6: a store holding a single rumor with expiration
`-1`; at instant `0` it is expired and purged. -/
theorem expired_live_partition_purge_witness :
    c6Store.WF ∧
    c6Store.expired_rumors fakeImpl 0 =
      c6Store.allRumors.filter (fun r => (fakeImpl.expiration r).expired 0) ∧
    c6Store.live_rumors fakeImpl 0 =
      c6Store.allRumors.filter (fun r => !(fakeImpl.expiration r).expired 0) ∧
    ∀ r ∈ c6Store.allRumors, (fakeImpl.expiration r).expired 0 = true →
      (c6Store.purge_expired fakeImpl 0).contains_rumor
        (fakeImpl.key r) (fakeImpl.id r) = false :=
  ⟨by decide, expired_live_partition_purge fakeImpl c6Store 0 (by decide)⟩

/-! ### C9 -/

theorem rumorMinStep_some (t : List String) :
    ∀ m : String, ∃ m', t.foldl rumorMinStep (some m) = some m' := by
  induction t with
  | nil => intro m; exact ⟨m, rfl⟩
  | cons k t ih =>
    intro m
    by_cases hlt : utf8Bytes k < utf8Bytes m
    · simpa [rumorMinStep, hlt] using ih k
    · simpa [rumorMinStep, hlt] using ih m

theorem rustMin_go (t : List String) :
    ∀ m m' : String, t.foldl rumorMinStep (some m) = some m' →
      (m' = m ∨ m' ∈ t) ∧ utf8Bytes m' ≤ utf8Bytes m ∧
        ∀ k ∈ t, utf8Bytes m' ≤ utf8Bytes k := by
  induction t with
  | nil =>
    intro m m' h
    injection h with h'
    subst h'
    exact ⟨Or.inl rfl, le_refl _, by simp⟩
  | cons k t ih =>
    intro m m' h
    by_cases hlt : utf8Bytes k < utf8Bytes m
    · have h' : t.foldl rumorMinStep (some k) = some m' := by
        simpa [rumorMinStep, hlt] using h
      rcases ih k m' h' with ⟨hmem, hle, hall⟩
      refine ⟨?_, hle.trans (le_of_lt hlt), ?_⟩
      · rcases hmem with rfl | hm
        · exact Or.inr (List.mem_cons_self _ _)
        · exact Or.inr (List.mem_cons_of_mem _ hm)
      · intro x hx
        rcases List.mem_cons.mp hx with rfl | hxt
        · exact hle
        · exact hall x hxt
    · have h' : t.foldl rumorMinStep (some m) = some m' := by
        simpa [rumorMinStep, hlt] using h
      rcases ih m m' h' with ⟨hmem, hle, hall⟩
      refine ⟨?_, hle, ?_⟩
      · rcases hmem with rfl | hm
        · exact Or.inl rfl
        · exact Or.inr (List.mem_cons_of_mem _ hm)
      · intro x hx
        rcases List.mem_cons.mp hx with rfl | hxt
        · exact hle.trans (le_of_not_lt hlt)
        · exact hall x hxt

theorem rustMinString_none_iff (l : List String) :
    rustMinString l = none ↔ l = [] := by
  cases l with
  | nil => simp [rustMinString]
  | cons k t =>
    obtain ⟨m', hm'⟩ := rumorMinStep_some t k
    have : rustMinString (k :: t) = some m' := by
      simpa [rustMinString, rumorMinStep] using hm'
    simp [this]

theorem rustMinString_spec (l : List String) (m : String)
    (h : rustMinString l = some m) :
    m ∈ l ∧ ∀ k ∈ l, utf8Bytes m ≤ utf8Bytes k := by
  cases l with
  | nil => exact absurd h (by simp [rustMinString])
  | cons k t =>
    have h' : t.foldl rumorMinStep (some k) = some m := by
      simpa [rustMinString, rumorMinStep] using h
    rcases rustMin_go t k m h' with ⟨hmem, hle, hall⟩
    constructor
    · rcases hmem with rfl | hm
      · exact List.mem_cons_self _ _
      · exact List.mem_cons_of_mem _ hm
    · intro x hx
      rcases List.mem_cons.mp hx with rfl | hxt
      · exact hle
      · exact hall x hxt

/-- C9: `min_member_id_with(group, p)` returns `Some` of the
byte-lexicographically (over UTF-8 encoding) minimal member id among the
group's inner keys satisfying `p`, and `None` exactly when the group is
absent or no inner key satisfies `p`. -/
theorem min_member_id_with_spec (s : RumorStore T) (group : String)
    (p : String → Bool) :
    (assocGet s.list group = none → s.min_member_id_with group p = none) ∧
    ∀ inner, assocGet s.list group = some inner →
      ((s.min_member_id_with group p = none ↔
          (inner.map Prod.fst).filter p = []) ∧
       ∀ m, s.min_member_id_with group p = some m →
         p m = true ∧ m ∈ inner.map Prod.fst ∧
         ∀ k ∈ inner.map Prod.fst, p k = true → utf8Bytes m ≤ utf8Bytes k) := by
  constructor
  · intro h
    simp only [RumorStore.min_member_id_with, h]
  · intro inner h
    constructor
    · simp only [RumorStore.min_member_id_with, h]
      exact rustMinString_none_iff _
    · intro m hm
      simp only [RumorStore.min_member_id_with, h] at hm
      rcases rustMinString_spec _ m hm with ⟨hmem, hall⟩
      rcases List.mem_filter.mp hmem with ⟨hkeys, hp⟩
      refine ⟨hp, hkeys, ?_⟩
      intro k hk hpk
      exact hall k (List.mem_filter.mpr ⟨hk, hpk⟩)

/-- Inner map of the concrete C9 witness store: member ids `"b"` and
`"a"` in that insertion order. -/
def c9Inner : List (String × FakeR) :=
  [("b", ⟨"b", "g", 0⟩), ("a", ⟨"a", "g", 0⟩)]

/-- The concrete C9 witness store. -/
def c9Store : RumorStore FakeR :=
  { list := [("g", c9Inner)], update_counter := 0 }

/-- Witness for C9 at a concrete two-member group with the always-true
predicate. -/
theorem min_member_id_with_spec_witness :
    assocGet c9Store.list "g" = some c9Inner ∧
    ((c9Store.min_member_id_with "g" (fun _ => true) = none ↔
        (c9Inner.map Prod.fst).filter (fun _ => true) = []) ∧
     ∀ m, c9Store.min_member_id_with "g" (fun _ => true) = some m →
       (fun _ : String => true) m = true ∧ m ∈ c9Inner.map Prod.fst ∧
       ∀ k ∈ c9Inner.map Prod.fst, (fun _ : String => true) k = true →
         utf8Bytes m ≤ utf8Bytes k) :=
  ⟨rfl, (min_member_id_with_spec c9Store "g" (fun _ => true)).2 c9Inner rfl⟩

end Butterfly
